import Mathlib

/-!
Verification of the real-time administrative activity feed.

Server side (Event Log Store / Activity Broadcaster / Session Manager): the
backend module `websocket/activity_socket.py` is not part of the sources, so
those components are modelled from the specification (each definition's doc
comment says so).  Client side (Client Reconnection Agent): shallow embedding
of `WebSocketServiceClass` from `src/frontend/src/services/HealthService.js`.
-/

namespace ActivityFeed

/-- Modelled from the spec: an Event Record (missing backend
`activity_socket.py`).  `kind` is the event type, `summary` the one-line
description, `attrs` the open attribute mapping; `seq` is the store-assigned
monotonically increasing sequence number, which also stands for the
store-assigned (monotone) timestamp. -/
structure EventRecord where
  kind : String
  summary : String
  attrs : List (String × String)
  seq : Nat
deriving DecidableEq

/-- Modelled from the spec: the server state (missing backend
`activity_socket.py`): the append-only event log, the live session set
(session ids), and the delivery record: every (session, record) pair pushed so
far, in delivery order. -/
structure ServerState where
  log : List EventRecord
  live : List Nat
  inbox : List (Nat × EventRecord)
deriving DecidableEq

/-- Modelled from the spec: `recent(limit)` of the Event Log Store (missing
backend `activity_socket.py`): up to `limit` most-recent records in ascending
time order, empty for an empty log, never raising — implemented by taking
`limit` records from the most-recent end and restoring ascending order. -/
def recent (limit : Nat) (log : List EventRecord) : List EventRecord :=
  (log.reverse.take limit).reverse

/-- Modelled from the spec: the replay batch a freshly connecting session
receives: `recent(20)` pushed in ascending order (missing backend
`activity_socket.py`). -/
def replayBatch (st : ServerState) : List EventRecord :=
  recent 20 st.log

/-- Modelled from the spec: server-side actions — a successful `publish`
(append assigns `seq := log.length`, then fan-out to every live session),
a session joining the live set, a session leaving it (missing backend
`activity_socket.py`). -/
inductive SAct
  | publish (kind summary : String) (attrs : List (String × String))
  | join (sid : Nat)
  | leave (sid : Nat)
deriving DecidableEq

/-- Modelled from the spec: one server-side step (missing backend
`activity_socket.py`).  A successful publish appends the record to the log and
enqueues it for every currently live session; join/leave update the live set
only. -/
def serverStep (a : SAct) (st : ServerState) : ServerState :=
  match a with
  | SAct.publish k sm ats =>
      let r : EventRecord := ⟨k, sm, ats, st.log.length⟩
      { st with log := st.log ++ [r],
                inbox := st.inbox ++ st.live.map (fun sid => (sid, r)) }
  | SAct.join sid => { st with live := st.live ++ [sid] }
  | SAct.leave sid => { st with live := st.live.filter (fun x => decide (x ≠ sid)) }

/-- Run a sequence of server actions. -/
def serverRun (tr : List SAct) (st : ServerState) : ServerState :=
  match tr with
  | [] => st
  | a :: rest => serverRun rest (serverStep a st)

/-- The records created by the successful publishes of a trace, in publish
order, with the sequence numbers the store assigns along the way. -/
def publishedRecords : List SAct → ServerState → List EventRecord
  | [], _ => []
  | SAct.publish k sm ats :: rest, st =>
      ⟨k, sm, ats, st.log.length⟩ ::
        publishedRecords rest (serverStep (SAct.publish k sm ats) st)
  | SAct.join sid :: rest, st => publishedRecords rest (serverStep (SAct.join sid) st)
  | SAct.leave sid :: rest, st => publishedRecords rest (serverStep (SAct.leave sid) st)

/-- The sequence of records delivered to session `sid`, in delivery order. -/
def inboxOf (sid : Nat) (st : ServerState) : List EventRecord :=
  st.inbox.filterMap (fun p => if p.1 = sid then some p.2 else none)

/-- Modelled from the spec: error cause taxonomy for `publish` (missing
backend `activity_socket.py`). -/
inductive ErrCause
  | persistenceError
deriving DecidableEq

/-- Modelled from the spec: `BroadcastError` carrying its cause (missing
backend `activity_socket.py`). -/
structure BroadcastError where
  cause : ErrCause
deriving DecidableEq

/-- Modelled from the spec: the Broadcaster's `publish` (missing backend
`activity_socket.py`).  `appendOk` is whether the Event Log Store `append`
succeeds; on failure, publish raises `BroadcastError{cause: PersistenceError}`
and no delivery is attempted. -/
def publish (appendOk : Bool) (k sm : String) (ats : List (String × String))
    (st : ServerState) : Except BroadcastError ServerState :=
  if appendOk then Except.ok (serverStep (SAct.publish k sm ats) st)
  else Except.error ⟨ErrCause.persistenceError⟩

/-- The server state after a `publish` call: the new state on success, the old
state unchanged when the call raised. -/
def publishResult (appendOk : Bool) (k sm : String) (ats : List (String × String))
    (st : ServerState) : ServerState :=
  match publish appendOk k sm ats st with
  | Except.ok st' => st'
  | Except.error _ => st

end ActivityFeed

namespace ReconnectAgent

/-- Lifecycle of the `this.ws` slot of `WebSocketServiceClass`
(HealthService.js): `noSock` is `ws === null`; `connecting`, `opened`,
`closed` are the readyState of the current socket object. -/
inductive SockSt
  | noSock
  | connecting
  | opened
  | closed
deriving DecidableEq

/-- State of `WebSocketServiceClass` (HealthService.js constructor):
`sock` models `this.ws`, `listeners` the handler list (handlers named by
`Nat` ids), `reconnectDelay` (ms, exact rational since JS doubles are exact on
the values this field takes), `shouldReconnect`, `pingOn` models
`this._pingInterval !== null`, `pendingReconnect` models a scheduled
`setTimeout(() => this._connect(), ...)` not yet fired, and `attempts` counts
the connection attempts made (`new WebSocket(url)` evaluations). -/
structure Agent where
  sock : SockSt
  listeners : List Nat
  reconnectDelay : ℚ
  shouldReconnect : Bool
  pingOn : Bool
  pendingReconnect : Bool
  attempts : Nat
deriving DecidableEq

/-- Constructor state: `ws = null`, `listeners = []`, `reconnectDelay = 2000`,
`shouldReconnect = false`, `_pingInterval = null` (HealthService.js). -/
def init : Agent :=
  ⟨SockSt.noSock, [], 2000, false, false, false, 0⟩

/-- Backoff floor: the initial and reset value of `reconnectDelay` (2000 ms in
the constructor and the `onopen` handler). -/
def initialDelay : ℚ := 2000

/-- Backoff ceiling `this.maxDelay` (30000 ms). -/
def maxDelay : ℚ := 30000

/-- Keepalive interval passed to `setInterval` in `_startPing` (25000 ms). -/
def pingIntervalMs : Nat := 25000

/-- The literal keepalive frame `this.ws.send("ping")` sends. -/
def pingText : String := "ping"

/-- An inbound frame as the `onmessage` handler sees it: either unparseable
JSON (`JSON.parse` throws) or a parsed object whose `type` field is `ty`
(`none` when absent) with `pay` standing for the rest of the payload. -/
inductive Inbound
  | malformed
  | wf (ty : Option String) (pay : Nat)
deriving DecidableEq

/-- External events driving the agent: the public calls `connect(h)` and
`disconnect()`, the socket callbacks `onopen` / `onmessage` / `onclose` /
`onerror`, the reconnect `setTimeout` firing, and one tick of the keepalive
interval. -/
inductive Ev
  | connect (h : Nat)
  | openEv
  | msgEv (m : Inbound)
  | closeEv
  | errorEv
  | timerFire
  | disconnectEv
  | pingTick
deriving DecidableEq

/-- Handlers may throw: `hT h ty pay = true` means handler `h` throws on the
message `(ty, pay)`.  `listeners.forEach((fn) => fn(data))`: invoke handlers
in order; a throw aborts the remaining iterations.  Returns the invocations
made and whether an exception escaped the `forEach`. -/
def invokeAll (hT : Nat → Option String → Nat → Bool) (ty : Option String)
    (pay : Nat) : List Nat → List (Nat × Option String × Nat) × Bool
  | [] => ([], false)
  | h :: rest =>
      if hT h ty pay then ([(h, ty, pay)], true)
      else
        let p := invokeAll hT ty pay rest
        ((h, ty, pay) :: p.1, p.2)

/-- Result of the `try { ... }` body of the `onmessage` callback, before the
`catch`: the handler invocations made, and the exception (if any) that reaches
the `catch (_) {}` — `JSON.parse` throwing on malformed input, or a listener
throwing out of the `forEach`. -/
inductive CbErr
  | parseFailure
  | handlerFailure
deriving DecidableEq

/-- The `try` body of `onmessage` (HealthService.js): parse, swallow pongs,
forward everything else to the listeners. -/
def rawOnMessage (hT : Nat → Option String → Nat → Bool) (m : Inbound)
    (ls : List Nat) : List (Nat × Option String × Nat) × Option CbErr :=
  match m with
  | Inbound.malformed => ([], some CbErr.parseFailure)
  | Inbound.wf ty pay =>
      if ty = some "pong" then ([], none)
      else
        let p := invokeAll hT ty pay ls
        (p.1, if p.2 then some CbErr.handlerFailure else none)

/-- Result of one event step: the new agent state, the handler invocations
made, the frames sent to the server, and the delay of a `setTimeout` scheduled
by this step (the backoff wait), if any. -/
structure StepOut where
  st : Agent
  delivered : List (Nat × Option String × Nat)
  sent : List String
  scheduledWait : Option ℚ
deriving DecidableEq

/-- Body of `_connect` (HealthService.js): `this.ws = new WebSocket(url)` —
one more connection attempt, socket now connecting. -/
def connectSocket (s : Agent) : Agent :=
  { s with sock := SockSt.connecting, attempts := s.attempts + 1 }

/-- One step of `WebSocketServiceClass`, transcribed from HealthService.js.

* `connect(h)`: `shouldReconnect = true; listeners = [h]; this._connect()`.
* `onopen`: `reconnectDelay = 2000; this._startPing()` (socket now open).
* `onmessage`: `try { parse; if pong return; listeners.forEach(fn) } catch {}`.
* `onclose`: `this._stopPing(); if (shouldReconnect) {
  setTimeout(() => this._connect(), reconnectDelay);
  reconnectDelay = min(reconnectDelay * 1.5, maxDelay) }` — the wait uses the
  delay before it is grown.
* `onerror`: `this.ws.close()` — the resulting close callback is a separate
  `closeEv` trace event, so no state change here.
* `timerFire`: the scheduled `() => this._connect()` runs — note it does not
  re-check `shouldReconnect`.
* `disconnect()`: `shouldReconnect = false; this._stopPing();
  if (this.ws) { this.ws.close(); this.ws = null }`.
* `pingTick`: the interval callback — only exists while `pingOn`; sends
  `"ping"` iff `readyState === OPEN`.

Socket callbacks apply only in the socket states where the browser can fire
them (`onopen`/`onmessage` need a connecting/open socket, `onclose` a not yet
closed one); otherwise the event is a no-op of the environment. -/
def step (hT : Nat → Option String → Nat → Bool) : Ev → Agent → StepOut
  | Ev.connect h, s =>
      ⟨connectSocket { s with shouldReconnect := true, listeners := [h] },
        [], [], none⟩
  | Ev.openEv, s =>
      if s.sock = SockSt.connecting then
        let s1 : Agent :=
          { s with
              sock := SockSt.opened
              reconnectDelay := initialDelay
              pingOn := true }
        ⟨s1, [], [], none⟩
      else ⟨s, [], [], none⟩
  | Ev.msgEv m, s =>
      if s.sock = SockSt.opened then
        ⟨s, (rawOnMessage hT m s.listeners).1, [], none⟩
      else ⟨s, [], [], none⟩
  | Ev.closeEv, s =>
      if s.sock = SockSt.connecting ∨ s.sock = SockSt.opened then
        if s.shouldReconnect then
          let s1 : Agent :=
            { s with
                sock := SockSt.closed
                pingOn := false
                pendingReconnect := true
                reconnectDelay := min (s.reconnectDelay * (3 / 2)) maxDelay }
          ⟨s1, [], [], some s.reconnectDelay⟩
        else
          ⟨{ s with sock := SockSt.closed, pingOn := false }, [], [], none⟩
      else ⟨s, [], [], none⟩
  | Ev.errorEv, s => ⟨s, [], [], none⟩
  | Ev.timerFire, s =>
      if s.pendingReconnect then
        ⟨connectSocket { s with pendingReconnect := false }, [], [], none⟩
      else ⟨s, [], [], none⟩
  | Ev.disconnectEv, s =>
      let s1 : Agent :=
        { s with
            shouldReconnect := false
            pingOn := false
            sock := SockSt.noSock }
      ⟨s1, [], [], none⟩
  | Ev.pingTick, s =>
      if s.pingOn ∧ s.sock = SockSt.opened then ⟨s, [], [pingText], none⟩
      else ⟨s, [], [], none⟩

/-- State part of one step. -/
def stepSt (hT : Nat → Option String → Nat → Bool) (e : Ev) (s : Agent) :
    Agent :=
  (step hT e s).st

/-- Run a sequence of events. -/
def run (hT : Nat → Option String → Nat → Bool) (es : List Ev) (s : Agent) :
    Agent :=
  match es with
  | [] => s
  | e :: rest => run hT rest (stepSt hT e s)

/-- Process a sequence of inbound frames, collecting all handler
invocations in order. -/
def runMsgs (hT : Nat → Option String → Nat → Bool) (ms : List Inbound)
    (s : Agent) : Agent × List (Nat × Option String × Nat) :=
  match ms with
  | [] => (s, [])
  | m :: rest =>
      let o := step hT (Ev.msgEv m) s
      let p := runMsgs hT rest o.st
      (p.1, o.delivered ++ p.2)

/-- A handler function that never throws. -/
def hNo : Nat → Option String → Nat → Bool := fun _ _ _ => false

end ReconnectAgent

namespace ActivityFeed

theorem recent_eq_drop (k : Nat) (l : List EventRecord) :
    recent k l = l.drop (l.length - k) := by
  unfold recent
  rw [List.reverse_take]
  simp

theorem serverRun_log (tr : List SAct) (st : ServerState) :
    (serverRun tr st).log = st.log ++ publishedRecords tr st := by
  induction tr generalizing st with
  | nil => simp [serverRun, publishedRecords]
  | cons a rest ih =>
    cases a with
    | publish k sm ats => simp [serverRun, publishedRecords, ih, serverStep]
    | join sid => simp [serverRun, publishedRecords, ih, serverStep]
    | leave sid => simp [serverRun, publishedRecords, ih, serverStep]

theorem filterMap_map_pair (sid : Nat) (r : EventRecord) (l : List Nat) :
    (l.map (fun s' => (s', r))).filterMap
      (fun p => if p.1 = sid then some p.2 else none) =
    List.replicate (l.count sid) r := by
  induction l with
  | nil => rfl
  | cons x xs ih =>
    simp only [List.map_cons, List.filterMap_cons]
    by_cases hx : x = sid
    · subst hx
      simp [List.count_cons, ih, List.replicate_succ]
    · simp [List.count_cons, hx, Ne.symm hx, ih]

theorem inboxOf_publish (sid : Nat) (k sm : String)
    (ats : List (String × String)) (st : ServerState) :
    inboxOf sid (serverStep (SAct.publish k sm ats) st) =
      inboxOf sid st ++
        List.replicate (st.live.count sid) ⟨k, sm, ats, st.log.length⟩ := by
  simp only [inboxOf, serverStep]
  rw [List.filterMap_append, filterMap_map_pair]

/-- The records of the publishes at whose publish time session `sid` is in
the live set — the events published while the session is active — in publish
order, with the store-assigned sequence numbers. -/
def activeRecords (sid : Nat) : List SAct → ServerState → List EventRecord
  | [], _ => []
  | SAct.publish k sm ats :: rest, st =>
      (if sid ∈ st.live then [⟨k, sm, ats, st.log.length⟩] else []) ++
        activeRecords sid rest (serverStep (SAct.publish k sm ats) st)
  | SAct.join s' :: rest, st =>
      activeRecords sid rest (serverStep (SAct.join s') st)
  | SAct.leave s' :: rest, st =>
      activeRecords sid rest (serverStep (SAct.leave s') st)

/-- Session ids are opaque and assigned at connection time, so a trace never
joins a session id that is currently live: `joinsFresh sid tr st` checks that
every `join sid` in `tr` happens while `sid` is not in the live set. -/
def joinsFresh (sid : Nat) : List SAct → ServerState → Bool
  | [], _ => true
  | a :: rest, st =>
      decide (a = SAct.join sid → sid ∉ st.live) &&
        joinsFresh sid rest (serverStep a st)

theorem count_le_one_step (sid : Nat) (a : SAct) (st : ServerState)
    (h : st.live.count sid ≤ 1) (ha : a = SAct.join sid → sid ∉ st.live) :
    (serverStep a st).live.count sid ≤ 1 := by
  cases a with
  | publish k sm ats => exact h
  | join s' =>
      by_cases hs : s' = sid
      · have h0 : st.live.count sid = 0 :=
          List.count_eq_zero.mpr (ha (by rw [hs]))
        simp only [serverStep, List.count_append]
        have h1 : List.count sid [s'] = 1 := by simp [hs]
        omega
      · have hne : sid ≠ s' := fun hh => hs hh.symm
        simp only [serverStep, List.count_append]
        have h1 : List.count sid [s'] = 0 := by simp [hne]
        omega
  | leave s' =>
      by_cases hs : s' = sid
      · have h0 : (st.live.filter (fun x => decide (x ≠ s'))).count sid = 0 := by
          refine List.count_eq_zero.mpr ?_
          intro hmem
          have hx := List.of_mem_filter hmem
          rw [decide_eq_true_eq] at hx
          exact hx hs.symm
        simp only [serverStep]
        rw [h0]
        omega
      · have hne : sid ≠ s' := fun hh => hs hh.symm
        simp only [serverStep]
        rw [List.count_filter (by simp [hne])]
        exact h

theorem replicate_count_live (sid : Nat) (st : ServerState) (r : EventRecord)
    (h : st.live.count sid ≤ 1) :
    List.replicate (st.live.count sid) r = if sid ∈ st.live then [r] else [] := by
  by_cases hm : sid ∈ st.live
  · have hpos : 0 < st.live.count sid := List.count_pos_iff.mpr hm
    have h1 : st.live.count sid = 1 := by omega
    simp [hm, h1]
  · have h0 : st.live.count sid = 0 := List.count_eq_zero.mpr hm
    simp [hm, h0]

theorem inboxOf_run_active (sid : Nat) (tr : List SAct) :
    ∀ st : ServerState, st.live.count sid ≤ 1 →
      joinsFresh sid tr st = true →
      inboxOf sid (serverRun tr st) = inboxOf sid st ++ activeRecords sid tr st := by
  induction tr with
  | nil =>
      intro st _ _
      simp [serverRun, activeRecords]
  | cons a rest ih =>
      intro st hcount hfresh
      simp only [joinsFresh, Bool.and_eq_true, decide_eq_true_eq] at hfresh
      obtain ⟨ha, hrest⟩ := hfresh
      have hc' := count_le_one_step sid a st hcount ha
      cases a with
      | publish k sm ats =>
          rw [serverRun, activeRecords, ih _ hc' hrest, inboxOf_publish,
            replicate_count_live sid st _ hcount]
          simp [List.append_assoc]
      | join s' =>
          rw [serverRun, activeRecords, ih _ hc' hrest]
          simp [inboxOf, serverStep]
      | leave s' =>
          rw [serverRun, activeRecords, ih _ hc' hrest]
          simp [inboxOf, serverStep]

theorem activeRecords_sublist (sid : Nat) (tr : List SAct) :
    ∀ st : ServerState,
      (activeRecords sid tr st).Sublist (publishedRecords tr st) := by
  induction tr with
  | nil =>
      intro st
      simp [activeRecords, publishedRecords]
  | cons a rest ih =>
      intro st
      cases a with
      | publish k sm ats =>
          rw [activeRecords, publishedRecords]
          by_cases hm : sid ∈ st.live
          · rw [if_pos hm]
            exact (ih _).cons₂ _
          · rw [if_neg hm, List.nil_append]
            exact (ih _).cons _
      | join s' => rw [activeRecords, publishedRecords]; exact ih _
      | leave s' => rw [activeRecords, publishedRecords]; exact ih _

theorem publishedRecords_seq_ge (tr : List SAct) (st : ServerState) :
    ∀ r ∈ publishedRecords tr st, st.log.length ≤ r.seq := by
  induction tr generalizing st with
  | nil => simp [publishedRecords]
  | cons a rest ih =>
    cases a with
    | publish k sm ats =>
        intro r hr
        rw [publishedRecords] at hr
        rcases List.mem_cons.mp hr with h | h
        · rw [h]
        · have := ih _ r h
          simp [serverStep] at this
          omega
    | join s' =>
        intro r hr
        rw [publishedRecords] at hr
        exact ih (serverStep (SAct.join s') st) r hr
    | leave s' =>
        intro r hr
        rw [publishedRecords] at hr
        exact ih (serverStep (SAct.leave s') st) r hr

theorem publishedRecords_nodup (tr : List SAct) (st : ServerState) :
    (publishedRecords tr st).Nodup := by
  induction tr generalizing st with
  | nil => simp [publishedRecords]
  | cons a rest ih =>
    cases a with
    | publish k sm ats =>
        rw [publishedRecords]
        refine List.nodup_cons.mpr ⟨?_, ih _⟩
        intro hmem
        have := publishedRecords_seq_ge rest _ _ hmem
        simp [serverStep] at this
    | join s' => rw [publishedRecords]; exact ih _
    | leave s' => rw [publishedRecords]; exact ih _

/-- The demonstration trace: 25 successful publishes in order, event `i+1`
carrying summary `toString (i+1)`. -/
def demoTrace : List SAct :=
  (List.range 25).map (fun i => SAct.publish "e" (toString (i + 1)) [])

/-- C1: for every sequence of successful publish calls (interleaved with
session joins/leaves), a freshly connecting session's replay batch equals the
last `min(20, total_published)` appended records in publish (ascending) order;
after the 25-publish demonstration trace the replay is exactly events 6–25 and
omits 1–5; an empty log yields an empty replay. -/
theorem C1_replay_is_bounded_recent_suffix :
    (∀ (sids : List Nat) (tr : List SAct),
      (serverRun tr ⟨[], sids, []⟩).log = publishedRecords tr ⟨[], sids, []⟩ ∧
      replayBatch (serverRun tr ⟨[], sids, []⟩) =
        (publishedRecords tr ⟨[], sids, []⟩).drop
          ((publishedRecords tr ⟨[], sids, []⟩).length - 20) ∧
      (replayBatch (serverRun tr ⟨[], sids, []⟩)).length =
        min 20 (publishedRecords tr ⟨[], sids, []⟩).length) ∧
    replayBatch (serverRun demoTrace ⟨[], [0], []⟩) =
      ((List.range 25).drop 5).map (fun i => ⟨"e", toString (i + 1), [], i⟩) ∧
    replayBatch ⟨[], [], []⟩ = [] := by
  refine ⟨fun sids tr => ?_, by decide, rfl⟩
  have hlog : (serverRun tr ⟨[], sids, []⟩).log = publishedRecords tr ⟨[], sids, []⟩ := by
    have := serverRun_log tr ⟨[], sids, []⟩
    simpa using this
  refine ⟨hlog, ?_, ?_⟩
  · rw [replayBatch, recent_eq_drop, hlog]
  · rw [replayBatch, recent_eq_drop, hlog, List.length_drop]
    omega

/-- C2: a `publish` whose Event Log Store append fails raises
`BroadcastError{cause: PersistenceError}` and is atomic: the state is
unchanged, so zero deliveries are made and the live session set is
untouched. -/
theorem C2_append_failure_is_atomic :
    ∀ (k sm : String) (ats : List (String × String)) (st : ServerState),
      publish false k sm ats st =
        Except.error ⟨ErrCause.persistenceError⟩ ∧
      publishResult false k sm ats st = st ∧
      (publishResult false k sm ats st).inbox = st.inbox ∧
      (publishResult false k sm ats st).live = st.live :=
  fun _ _ _ _ => ⟨rfl, rfl, rfl, rfl⟩

/-- C3: for every trace of publishes, joins and leaves in which session ids
are used consistently (the session is registered at most once initially and
every `join` of it happens while it is not live), the session's inbox is
exactly the sequence of records published while it was active, in publish
order — a sublist of all published records, so for any A published before B
with the session active at both, A is received strictly before B — and each
record published while it was active is received exactly once (no duplicate,
no drop).  This covers sessions that connect mid-stream and sessions that
disconnect after receiving events. -/
theorem C3_fanout_order_and_exactly_once :
    ∀ (tr : List SAct) (sid : Nat) (sids : List Nat),
      sids.count sid ≤ 1 →
      joinsFresh sid tr ⟨[], sids, []⟩ = true →
      inboxOf sid (serverRun tr ⟨[], sids, []⟩) =
        activeRecords sid tr ⟨[], sids, []⟩ ∧
      (activeRecords sid tr ⟨[], sids, []⟩).Sublist
        (publishedRecords tr ⟨[], sids, []⟩) ∧
      ∀ r ∈ activeRecords sid tr ⟨[], sids, []⟩,
        (inboxOf sid (serverRun tr ⟨[], sids, []⟩)).count r = 1 := by
  intro tr sid sids hcount hfresh
  have h1 : inboxOf sid (serverRun tr ⟨[], sids, []⟩) =
      activeRecords sid tr ⟨[], sids, []⟩ := by
    have := inboxOf_run_active sid tr ⟨[], sids, []⟩ hcount hfresh
    simpa [inboxOf] using this
  have hsub := activeRecords_sublist sid tr ⟨[], sids, []⟩
  refine ⟨h1, hsub, fun r hr => ?_⟩
  rw [h1]
  exact List.count_eq_one_of_mem
    ((publishedRecords_nodup tr _).sublist hsub) hr

/-- The C3 demonstration trace: session 3 connects mid-stream after one
publish, is active for two publishes, then disconnects before a final
publish. -/
def trC3 : List SAct :=
  [SAct.publish "a" "x" [], SAct.join 3, SAct.publish "b" "y" [],
   SAct.publish "c" "z" [], SAct.leave 3, SAct.publish "d" "w" []]

/-- Witness for C3: a session that joins mid-stream and leaves before the
last publish receives exactly the two records published while it was active,
each exactly once. -/
theorem C3_witness :
    inboxOf 3 (serverRun trC3 ⟨[], [], []⟩) = activeRecords 3 trC3 ⟨[], [], []⟩ ∧
    (activeRecords 3 trC3 ⟨[], [], []⟩).Sublist
      (publishedRecords trC3 ⟨[], [], []⟩) ∧
    (inboxOf 3 (serverRun trC3 ⟨[], [], []⟩)).count ⟨"b", "y", [], 1⟩ = 1 :=
  ⟨(C3_fanout_order_and_exactly_once trC3 3 [] (by decide) (by decide)).1,
   (C3_fanout_order_and_exactly_once trC3 3 [] (by decide) (by decide)).2.1,
   (C3_fanout_order_and_exactly_once trC3 3 [] (by decide) (by decide)).2.2
     ⟨"b", "y", [], 1⟩ (by decide)⟩

end ActivityFeed

namespace ReconnectAgent

/-- The permanently-stopped configuration: reconnection intent cleared, no
pending reconnect timer, no socket, keepalive off. -/
def Stopped (s : Agent) : Prop :=
  s.shouldReconnect = false ∧ s.pendingReconnect = false ∧
  s.sock = SockSt.noSock ∧ s.pingOn = false

theorem stopped_step (hT : Nat → Option String → Nat → Bool) (e : Ev)
    (s : Agent) (hs : Stopped s) (hc : ∀ h, e ≠ Ev.connect h) :
    stepSt hT e s = s := by
  obtain ⟨h1, h2, h3, h4⟩ := hs
  cases e with
  | connect h => exact absurd rfl (hc h)
  | openEv => simp [stepSt, step, h3]
  | msgEv m => simp [stepSt, step, h3]
  | closeEv => simp [stepSt, step, h3]
  | errorEv => rfl
  | timerFire => simp [stepSt, step, h2]
  | disconnectEv => cases s; simp_all [stepSt, step]
  | pingTick =>
      simp only [stepSt, step]
      split <;> rfl

theorem run_stopped (hT : Nat → Option String → Nat → Bool) (es : List Ev)
    (s : Agent) (hs : Stopped s) :
    (∀ h, Ev.connect h ∉ es) → run hT es s = s := by
  induction es with
  | nil => intro _; rfl
  | cons e rest ih =>
      intro hc
      have he : ∀ h, e ≠ Ev.connect h := by
        intro h heq
        exact hc h (by rw [heq]; exact List.mem_cons_self _ _)
      rw [run, stopped_step hT e s hs he]
      exact ih fun h hmem => hc h (List.mem_cons_of_mem e hmem)

/-- C4 counterexample: `disconnect()` called during a backoff wait does not
cancel the scheduled `setTimeout(() => this._connect(), ...)`; when the timer
fires, `_connect` runs without re-checking `shouldReconnect`, so a further
connection attempt occurs after the explicit disconnect — the second
`new WebSocket` evaluation happens (attempts goes 1 to 2) and the agent is
connecting again rather than staying stopped. -/
theorem C4_counterexample_pending_timer_reconnects :
    (run hNo [Ev.connect 0, Ev.openEv, Ev.closeEv, Ev.disconnectEv]
        init).shouldReconnect = false ∧
    (run hNo [Ev.connect 0, Ev.openEv, Ev.closeEv, Ev.disconnectEv]
        init).pendingReconnect = true ∧
    (run hNo [Ev.connect 0, Ev.openEv, Ev.closeEv, Ev.disconnectEv]
        init).attempts = 1 ∧
    (run hNo [Ev.connect 0, Ev.openEv, Ev.closeEv, Ev.disconnectEv,
        Ev.timerFire] init).attempts = 2 ∧
    (run hNo [Ev.connect 0, Ev.openEv, Ev.closeEv, Ev.disconnectEv,
        Ev.timerFire] init).sock = SockSt.connecting :=
  ⟨rfl, rfl, rfl, rfl, rfl⟩

/-- C4 (amended): an explicit `disconnect()` clears reconnection intent,
stops the keepalive timer and closes the transport, and — provided no
reconnection attempt was already scheduled during a backoff wait when
`disconnect()` was called — the agent stays stopped permanently: in every
subsequent execution without a new `connect` call, no event changes the state,
so no further connection attempt ever occurs.  (When a reconnection attempt is
already scheduled, that timer still fires and makes one more connection
attempt; the spec sentence does not hold in that case.) -/
theorem C4_disconnect_stops_agent_when_no_timer_pending :
    ∀ (hT : Nat → Option String → Nat → Bool) (s : Agent) (es : List Ev),
      s.pendingReconnect = false →
      (∀ h, Ev.connect h ∉ es) →
      Stopped (stepSt hT Ev.disconnectEv s) ∧
      run hT es (stepSt hT Ev.disconnectEv s) = stepSt hT Ev.disconnectEv s := by
  intro hT s es hp hc
  have hst : Stopped (stepSt hT Ev.disconnectEv s) := ⟨rfl, hp, rfl, rfl⟩
  exact ⟨hst, run_stopped hT es _ hst hc⟩

/-- Witness for the amended C4: disconnect from a connected agent with no
timer pending, then a close, a stray timer event and a ping tick change
nothing. -/
theorem C4_amended_witness :
    Stopped (stepSt hNo Ev.disconnectEv
      (run hNo [Ev.connect 0, Ev.openEv] init)) ∧
    run hNo [Ev.closeEv, Ev.timerFire, Ev.pingTick]
        (stepSt hNo Ev.disconnectEv (run hNo [Ev.connect 0, Ev.openEv] init)) =
      stepSt hNo Ev.disconnectEv (run hNo [Ev.connect 0, Ev.openEv] init) :=
  C4_disconnect_stops_agent_when_no_timer_pending hNo
    (run hNo [Ev.connect 0, Ev.openEv] init)
    [Ev.closeEv, Ev.timerFire, Ev.pingTick] rfl
    (by intro h hmem; simp at hmem)

/-- The backoff delay stays between the floor and the ceiling. -/
def DelayInv (s : Agent) : Prop :=
  initialDelay ≤ s.reconnectDelay ∧ s.reconnectDelay ≤ maxDelay

theorem delayInv_step (hT : Nat → Option String → Nat → Bool) (e : Ev)
    (s : Agent) (h : DelayInv s) : DelayInv (stepSt hT e s) := by
  obtain ⟨h1, h2⟩ := h
  have hfloor : initialDelay ≤ maxDelay := by norm_num [initialDelay, maxDelay]
  cases e with
  | connect h' => exact ⟨h1, h2⟩
  | openEv =>
      simp only [stepSt, step]
      split
      · exact ⟨le_refl _, hfloor⟩
      · exact ⟨h1, h2⟩
  | msgEv m =>
      simp only [stepSt, step]
      split <;> exact ⟨h1, h2⟩
  | closeEv =>
      simp only [stepSt, step]
      split
      · split
        · refine ⟨le_min ?_ hfloor, min_le_right _ _⟩
          have : initialDelay ≤ s.reconnectDelay * (3 / 2) := by
            rw [initialDelay] at h1 ⊢
            linarith
          exact this
        · exact ⟨h1, h2⟩
      · exact ⟨h1, h2⟩
  | errorEv => exact ⟨h1, h2⟩
  | timerFire =>
      simp only [stepSt, step]
      split <;> exact ⟨h1, h2⟩
  | disconnectEv => exact ⟨h1, h2⟩
  | pingTick =>
      simp only [stepSt, step]
      split <;> exact ⟨h1, h2⟩

theorem delayInv_run (hT : Nat → Option String → Nat → Bool) (es : List Ev)
    (s : Agent) (h : DelayInv s) : DelayInv (run hT es s) := by
  induction es generalizing s with
  | nil => exact h
  | cons e rest ih => exact ih (stepSt hT e s) (delayInv_step hT e s h)

/-- C5: across the agent's whole reachable state space the backoff delay sits
between the 2000 ms floor and the 30000 ms ceiling; an unexpected close while
reconnection intent is set schedules the wait with the current (pre-growth)
delay and then grows the delay to `min(delay * 1.5, 30000)` — non-decreasing,
never above the ceiling, and strictly larger whenever the ceiling has not been
reached; a successful open resets the delay to the 2000 ms floor. -/
theorem C5_backoff_monotone_capped_reset :
    ∀ hT : Nat → Option String → Nat → Bool,
      (∀ es : List Ev,
        initialDelay ≤ (run hT es init).reconnectDelay ∧
        (run hT es init).reconnectDelay ≤ maxDelay) ∧
      (∀ s : Agent, (s.sock = SockSt.connecting ∨ s.sock = SockSt.opened) →
        s.shouldReconnect = true →
        (step hT Ev.closeEv s).scheduledWait = some s.reconnectDelay ∧
        (step hT Ev.closeEv s).st.reconnectDelay =
          min (s.reconnectDelay * (3 / 2)) maxDelay ∧
        (initialDelay ≤ s.reconnectDelay → s.reconnectDelay ≤ maxDelay →
          s.reconnectDelay ≤ (step hT Ev.closeEv s).st.reconnectDelay) ∧
        (step hT Ev.closeEv s).st.reconnectDelay ≤ maxDelay ∧
        (0 < s.reconnectDelay → s.reconnectDelay < maxDelay →
          s.reconnectDelay < (step hT Ev.closeEv s).st.reconnectDelay)) ∧
      (∀ s : Agent, s.sock = SockSt.connecting →
        (step hT Ev.openEv s).st.reconnectDelay = initialDelay) := by
  intro hT
  refine ⟨?_, ?_, ?_⟩
  · intro es
    exact delayInv_run hT es init ⟨le_refl _, by norm_num [init, maxDelay]⟩
  · intro s hg hr
    have hstep : step hT Ev.closeEv s =
        ⟨{ s with
            sock := SockSt.closed
            pingOn := false
            pendingReconnect := true
            reconnectDelay := min (s.reconnectDelay * (3 / 2)) maxDelay },
          [], [], some s.reconnectDelay⟩ := by
      simp only [step, hg, hr]
      simp
    rw [hstep]
    refine ⟨rfl, rfl, ?_, min_le_right _ _, ?_⟩
    · intro hd hcap
      refine le_min ?_ hcap
      rw [initialDelay] at hd
      linarith
    · intro hpos hlt
      refine lt_min ?_ hlt
      linarith
  · intro s hconn
    simp [step, hconn]

/-- A connected agent: open socket, handler 0 registered, delay at the floor,
intent set, keepalive running, one attempt made. -/
def sOpen : Agent :=
  ⟨SockSt.opened, [0], 2000, true, true, false, 1⟩

/-- An agent whose socket is still connecting. -/
def sConn : Agent :=
  ⟨SockSt.connecting, [0], 2000, true, false, false, 1⟩

/-- Witness for C5 at the concrete connected state `sOpen`. -/
theorem C5_witness :
    (step hNo Ev.closeEv sOpen).scheduledWait = some sOpen.reconnectDelay ∧
    sOpen.reconnectDelay ≤ (step hNo Ev.closeEv sOpen).st.reconnectDelay ∧
    (step hNo Ev.closeEv sOpen).st.reconnectDelay ≤ maxDelay ∧
    (step hNo Ev.openEv sConn).st.reconnectDelay = initialDelay :=
  ⟨((C5_backoff_monotone_capped_reset hNo).2.1 sOpen (Or.inr rfl) rfl).1,
   ((C5_backoff_monotone_capped_reset hNo).2.1 sOpen (Or.inr rfl) rfl).2.2.1
     (by norm_num [sOpen, initialDelay]) (by norm_num [sOpen, maxDelay]),
   ((C5_backoff_monotone_capped_reset hNo).2.1 sOpen (Or.inr rfl) rfl).2.2.2.1,
   (C5_backoff_monotone_capped_reset hNo).2.2 sConn rfl⟩

/-- What the `onmessage` handler forwards to the single registered handler
`h` for one inbound frame: nothing for malformed input or a pong, the parsed
message otherwise. -/
def fwdOne (h : Nat) : Inbound → Option (Nat × Option String × Nat)
  | Inbound.malformed => none
  | Inbound.wf ty pay => if ty = some "pong" then none else some (h, ty, pay)

theorem invokeAll_single (hT : Nat → Option String → Nat → Bool)
    (ty : Option String) (pay : Nat) (h : Nat) :
    (invokeAll hT ty pay [h]).1 = [(h, ty, pay)] := by
  unfold invokeAll
  split <;> rfl

theorem stepMsg_st (hT : Nat → Option String → Nat → Bool) (m : Inbound)
    (s : Agent) : (step hT (Ev.msgEv m) s).st = s := by
  simp only [step]
  split <;> rfl

theorem stepMsg_delivered (hT : Nat → Option String → Nat → Bool)
    (m : Inbound) (s : Agent) (hop : s.sock = SockSt.opened) (h : Nat)
    (hl : s.listeners = [h]) :
    (step hT (Ev.msgEv m) s).delivered = (fwdOne h m).toList := by
  simp only [step, hop, if_pos]
  cases m with
  | malformed => rfl
  | wf ty pay =>
      simp only [rawOnMessage, fwdOne, hl]
      by_cases hp : ty = some "pong"
      · simp [hp]
      · simp [hp, invokeAll_single]

/-- C6: with a single registered handler, processing any sequence of inbound
frames leaves the agent state unchanged (in particular malformed frames raise
no error and do not close the connection), forwards every well-formed
non-pong message to the handler in arrival order, and forwards neither pongs
nor malformed frames.  Holds whether or not the handler throws. -/
theorem C6_message_filtering_and_order :
    ∀ (hT : Nat → Option String → Nat → Bool) (ms : List Inbound) (h : Nat)
      (s : Agent), s.sock = SockSt.opened → s.listeners = [h] →
      (runMsgs hT ms s).1 = s ∧
      (runMsgs hT ms s).2 = ms.filterMap (fwdOne h) := by
  intro hT ms h s hop hl
  induction ms with
  | nil => exact ⟨rfl, rfl⟩
  | cons m rest ih =>
      have hst := stepMsg_st hT m s
      constructor
      · show (runMsgs hT rest (step hT (Ev.msgEv m) s).st).1 = s
        rw [hst]
        exact ih.1
      · show (step hT (Ev.msgEv m) s).delivered ++
            (runMsgs hT rest (step hT (Ev.msgEv m) s).st).2 =
          List.filterMap (fwdOne h) (m :: rest)
        rw [hst, ih.2, stepMsg_delivered hT m s hop h hl, List.filterMap_cons]
        cases fwdOne h m <;> rfl

/-- The demonstration inbound sequence: a pong, a malformed frame, and two
well-formed messages. -/
def msDemo : List Inbound :=
  [Inbound.wf (some "pong") 1, Inbound.malformed,
   Inbound.wf (some "user_signup") 2, Inbound.wf none 3]

/-- Witness for C6 on the demonstration sequence. -/
theorem C6_witness :
    (runMsgs hNo msDemo sOpen).1 = sOpen ∧
    (runMsgs hNo msDemo sOpen).2 = msDemo.filterMap (fwdOne 0) :=
  C6_message_filtering_and_order hNo msDemo 0 sOpen rfl rfl

/-- C7: a successful open starts the keepalive timer; the interval is the
fixed 25000 ms constant and the frame is the literal text `"ping"`; a tick
sends the ping only while the socket is open and sends nothing otherwise; a
close of a live socket and an explicit `disconnect()` stop the timer, and
after such a close a tick sends nothing further. -/
theorem tick_silent_of_pingOff (hT : Nat → Option String → Nat → Bool)
    (s : Agent) (h : s.pingOn = false) :
    (step hT Ev.pingTick s).sent = [] := by
  simp only [step]
  split
  · rename_i hcond
    rw [h] at hcond
    exact absurd hcond.1 (by simp)
  · rfl

theorem C7_keepalive_ping_lifecycle :
    ∀ (hT : Nat → Option String → Nat → Bool) (s : Agent),
      (s.sock = SockSt.connecting → (step hT Ev.openEv s).st.pingOn = true) ∧
      pingIntervalMs = 25000 ∧
      pingText = "ping" ∧
      (s.pingOn = true → s.sock = SockSt.opened →
        (step hT Ev.pingTick s).sent = [pingText]) ∧
      (s.sock ≠ SockSt.opened → (step hT Ev.pingTick s).sent = []) ∧
      ((s.sock = SockSt.connecting ∨ s.sock = SockSt.opened) →
        (step hT Ev.closeEv s).st.pingOn = false) ∧
      (step hT Ev.disconnectEv s).st.pingOn = false ∧
      ((s.sock = SockSt.connecting ∨ s.sock = SockSt.opened) →
        (step hT Ev.pingTick ((step hT Ev.closeEv s).st)).sent = []) := by
  intro hT s
  have hclose : (s.sock = SockSt.connecting ∨ s.sock = SockSt.opened) →
      (step hT Ev.closeEv s).st.pingOn = false := by
    intro hg
    simp only [step, hg, if_pos]
    split <;> rfl
  refine ⟨?_, rfl, rfl, ?_, ?_, hclose, rfl, ?_⟩
  · intro hconn
    simp [step, hconn]
  · intro hping hop
    simp [step, hping, hop]
  · intro hnot
    simp only [step]
    split
    · rename_i hcond
      exact absurd hcond.2 hnot
    · rfl
  · intro hg
    exact tick_silent_of_pingOff hT _ (hclose hg)

/-- Witness for C7 at the concrete states `sConn` and `sOpen`. -/
theorem C7_witness :
    (step hNo Ev.openEv sConn).st.pingOn = true ∧
    (step hNo Ev.pingTick sOpen).sent = [pingText] ∧
    (step hNo Ev.closeEv sOpen).st.pingOn = false ∧
    (step hNo Ev.pingTick ((step hNo Ev.closeEv sOpen).st)).sent = [] :=
  ⟨(C7_keepalive_ping_lifecycle hNo sConn).1 rfl,
   (C7_keepalive_ping_lifecycle hNo sOpen).2.2.2.1 rfl rfl,
   (C7_keepalive_ping_lifecycle hNo sOpen).2.2.2.2.2.1 (Or.inr rfl),
   (C7_keepalive_ping_lifecycle hNo sOpen).2.2.2.2.2.2.2 (Or.inr rfl)⟩

/-- C8 (implicit): every `connect(handler)` call makes the listener list
exactly the one-element list `[handler]`, replacing whatever was registered
before, so at most one handler is ever registered. -/
theorem C8_connect_replaces_handler :
    ∀ (hT : Nat → Option String → Nat → Bool) (h : Nat) (s : Agent),
      (step hT (Ev.connect h) s).st.listeners = [h] :=
  fun _ _ _ => rfl

/-- C9 (implicit): a registered handler that throws while processing a
forwarded message raises out of the `forEach`, reaching the same `catch` that
swallows malformed-JSON parse errors; the agent state (hence the connection)
is unchanged, the handler was still invoked with the message, and later
messages are processed exactly as they would have been. -/
theorem C9_handler_exception_contained :
    ∀ (hT : Nat → Option String → Nat → Bool) (hid : Nat)
      (ty : Option String) (pay : Nat) (s : Agent) (ms : List Inbound),
      s.sock = SockSt.opened → s.listeners = [hid] →
      hT hid ty pay = true → ty ≠ some "pong" →
      (rawOnMessage hT (Inbound.wf ty pay) s.listeners).2 =
        some CbErr.handlerFailure ∧
      (rawOnMessage hT Inbound.malformed s.listeners).2 =
        some CbErr.parseFailure ∧
      (step hT (Ev.msgEv (Inbound.wf ty pay)) s).st = s ∧
      (runMsgs hT (Inbound.wf ty pay :: ms) s).1 = (runMsgs hT ms s).1 ∧
      (runMsgs hT (Inbound.wf ty pay :: ms) s).2 =
        (hid, ty, pay) :: (runMsgs hT ms s).2 := by
  intro hT hid ty pay s ms hop hl hthrow hnp
  have hst := stepMsg_st hT (Inbound.wf ty pay) s
  refine ⟨?_, rfl, hst, ?_, ?_⟩
  · simp [rawOnMessage, hl, hnp, invokeAll, hthrow]
  · show (runMsgs hT ms (step hT (Ev.msgEv (Inbound.wf ty pay)) s).st).1 =
      (runMsgs hT ms s).1
    rw [hst]
  · show (step hT (Ev.msgEv (Inbound.wf ty pay)) s).delivered ++
        (runMsgs hT ms (step hT (Ev.msgEv (Inbound.wf ty pay)) s).st).2 =
      (hid, ty, pay) :: (runMsgs hT ms s).2
    rw [hst, stepMsg_delivered hT (Inbound.wf ty pay) s hop hid hl]
    simp [fwdOne, hnp]

/-- An always-throwing handler function. -/
def hYes : Nat → Option String → Nat → Bool := fun _ _ _ => true

/-- Witness for C9: handler 0 throws on a `user_signup` message while one
further message is queued. -/
theorem C9_witness :
    (rawOnMessage hYes (Inbound.wf (some "user_signup") 5)
        sOpen.listeners).2 = some CbErr.handlerFailure ∧
    (rawOnMessage hYes Inbound.malformed sOpen.listeners).2 =
      some CbErr.parseFailure ∧
    (step hYes (Ev.msgEv (Inbound.wf (some "user_signup") 5)) sOpen).st =
      sOpen ∧
    (runMsgs hYes (Inbound.wf (some "user_signup") 5 :: [Inbound.wf none 9])
        sOpen).1 = (runMsgs hYes [Inbound.wf none 9] sOpen).1 ∧
    (runMsgs hYes (Inbound.wf (some "user_signup") 5 :: [Inbound.wf none 9])
        sOpen).2 =
      (0, some "user_signup", 5) :: (runMsgs hYes [Inbound.wf none 9] sOpen).2 :=
  C9_handler_exception_contained hYes 0 (some "user_signup") 5 sOpen
    [Inbound.wf none 9] rfl rfl rfl (by simp)

/-- C10 (implicit): `disconnect()` is idempotent — on an already-disconnected
agent it raises no error and changes no state, and a second `disconnect()`
leaves exactly the state of the first. -/
theorem C10_disconnect_idempotent :
    ∀ (hT : Nat → Option String → Nat → Bool) (s : Agent),
      stepSt hT Ev.disconnectEv (stepSt hT Ev.disconnectEv s) =
        stepSt hT Ev.disconnectEv s ∧
      (s.shouldReconnect = false → s.sock = SockSt.noSock → s.pingOn = false →
        stepSt hT Ev.disconnectEv s = s) := by
  intro hT s
  constructor
  · rfl
  · intro h1 h2 h3
    cases s
    simp_all [stepSt, step]

/-- Witness for C10 at the constructor state, which is already
disconnected. -/
theorem C10_witness :
    stepSt hNo Ev.disconnectEv (stepSt hNo Ev.disconnectEv init) =
      stepSt hNo Ev.disconnectEv init ∧
    stepSt hNo Ev.disconnectEv init = init :=
  ⟨(C10_disconnect_idempotent hNo init).1,
   (C10_disconnect_idempotent hNo init).2 rfl rfl rfl⟩

end ReconnectAgent
